import Mathlib

/-!
Verification development for the route-optimization engine of the
One-Day-Tour-Planning-Application repository
(backend/agent/optimization.py and backend/models/schemas.py).

The Python code is shallowly embedded below.  Python floats are modelled as
elements of a linear ordered commutative ring, since the selector and the
scheduler only add, multiply and compare (the generic theorems therefore
hold at the reals and rationals; concrete example inputs instantiate the
ring at the integers, whose arithmetic the kernel evaluates, and every
integer value is an exact float).  The graph builder divides by mode speeds
and takes a square root in _calculate_distance, so it lives over the reals.
Exceptions are modelled with Except, and pydantic validation of the
ItineraryStop schema is modelled by an explicit field-checking function.

Two views of the selector and scheduler are embedded:

* a RAW view, faithful to the runtime data shapes: networkx add_edge,
  called once per transport mode with keyword attributes, overwrites the
  attribute dictionary of the unordered pair, so each edge ends up with the
  single attribute set of the last mode iterated; the subscript
  edge_data[mode] in _calculate_optimal_path is then a lookup of a missing
  dictionary key, and the ItineraryStop construction in _assign_time_slots
  is checked against the schema of schemas.py;

* a TYPED view of _calculate_optimal_path and _assign_time_slots, a
  line-by-line translation of those two function bodies under the edge-data
  shape that their own lookups presuppose (a per-mode attribute dictionary
  carrying time and cost), so that the algorithmic claims about them can be
  stated and settled independently of the shape mismatch.
-/

set_option linter.unusedVariables false

section Defs

/-- Transport mode names, in the iteration order of the transport_modes
dictionary of OptimizationAgent.__init__. -/
inductive Mode : Type where
  | walking : Mode
  | taxi : Mode
  | public_transport : Mode
deriving DecidableEq, Repr

/-- Iteration order of the transport_modes dictionary. -/
def modeList : List Mode := [Mode.walking, Mode.taxi, Mode.public_transport]

/-- Name string of a transport mode, as keyed in transport_modes. -/
def Mode.name : Mode → String
  | Mode.walking => "walking"
  | Mode.taxi => "taxi"
  | Mode.public_transport => "public_transport"

/-- Mode name strings in dictionary iteration order. -/
def modeNames : List String := ["walking", "taxi", "public_transport"]

/-- Parameters of one entry of transport_modes. -/
structure ModeParams (α : Type) where
  cost_per_km : α
  speed_kmh : α
deriving Repr

/-- Contents of the transport_modes dictionary (name, parameters), in
iteration order:  walking 0 per km at 4 km per h, taxi 2 per km at 30,
public_transport 0.5 per km at 20. -/
def transport_modes (α : Type) [DivisionRing α] : List (String × ModeParams α) :=
  [("walking", ⟨0, 4⟩), ("taxi", ⟨2, 30⟩), ("public_transport", ⟨1 / 2, 20⟩)]

/-- Per-mode edge payload read by _calculate_optimal_path:
edge_data[mode]["time"] and edge_data[mode]["cost"]. -/
structure ModeAttrs (α : Type) where
  time : α
  cost : α
deriving DecidableEq, Repr

/-- Travel graph in the shape presupposed by the lookups of
_calculate_optimal_path: a node list and, per ordered node pair, an
optional per-mode attribute table (get_edge_data returning None models a
missing edge, the falsy branch of the eligibility test). -/
structure Graph (α : Type) where
  nodes : List String
  edgeData : String → String → Option (Mode → ModeAttrs α)

/-- Path segment dictionary appended by _calculate_optimal_path, with keys
from, to, mode, time, cost. -/
structure Segment (α : Type) where
  fromN : String
  toN : String
  mode : Mode
  time : α
  cost : α
deriving DecidableEq, Repr

/-- Stop record as actually populated by _assign_time_slots: the location
argument is the destination node name string of the segment, times are kept
in minutes, and the hop that ARRIVES at the stop is stored in the two
travel_..._to_next fields. -/
structure Stop (α : Type) where
  location : String
  start_time : α
  end_time : α
  travel_time_to_next : α
  travel_method_to_next : Mode
  cost : α
deriving DecidableEq, Repr

/-- Python datetime.time value (hour, minute). -/
structure Time where
  hour : Nat
  minute : Nat
deriving DecidableEq, Repr

/-- Minute count of a clock time: hour * 60 + minute, the conversion done at
the top of _assign_time_slots. -/
def Time.toMinutes (t : Time) : Nat := t.hour * 60 + t.minute

/-- Candidate tracked by the inner loops of _calculate_optimal_path:
best_next, best_mode, and the attribute pair that produced best_score. -/
structure Cand (α : Type) where
  next : String
  mode : Mode
  attrs : ModeAttrs α
deriving DecidableEq, Repr

/-- Score of the selector: time plus ten times cost, from the line
score = edge_data[mode]["time"] + edge_data[mode]["cost"] * 10. -/
def score {α : Type} [LinearOrderedCommRing α] (a : ModeAttrs α) : α :=
  a.time + a.cost * 10

/-- Eligibility test of the selector at one candidate, from the line
if edge_data and edge_data[mode]["cost"] + current_cost <= budget. -/
def eligiblePair {α : Type} [LinearOrderedCommRing α] (G : Graph α) (cur : String)
    (cc budget : α) (n : String) (m : Mode) : Prop :=
  ∃ d, G.edgeData cur n = some d ∧ (d m).cost + cc ≤ budget

/-- One step of the candidate scan of _calculate_optimal_path, for one
(next_node, mode) pair: keep the running best unless this pair is eligible
and strictly beats the running best score (best_score starts at infinity,
so any eligible pair beats an empty best). -/
def candStep {α : Type} [LinearOrderedCommRing α] (G : Graph α) (cur : String)
    (cc budget : α) (best : Option (Cand α)) (nm : String × Mode) : Option (Cand α) :=
  match G.edgeData cur nm.1 with
  | none => best
  | some d =>
    if (d nm.2).cost + cc ≤ budget then
      match best with
      | none => some ⟨nm.1, nm.2, d nm.2⟩
      | some c =>
        if score (d nm.2) < score c.attrs then some ⟨nm.1, nm.2, d nm.2⟩ else best
    else best

/-- Candidate scan of one while-iteration of _calculate_optimal_path: the
nested loops over remaining_nodes and transport_modes, flattened into a fold
over their product in the same iteration order. -/
def bestCandidate {α : Type} [LinearOrderedCommRing α] (G : Graph α) (cur : String)
    (remaining : List String) (cc budget : α) : Option (Cand α) :=
  (remaining.product modeList).foldl (candStep G cur cc budget) none

/-- Main loop of _calculate_optimal_path (typed view).  The fuel argument is
instantiated with the length of remaining; each iteration removes the chosen
node from remaining, so that much fuel is exact for the while loop. -/
def calcPathGo {α : Type} [LinearOrderedCommRing α] (G : Graph α) :
    Nat → String → List String → α → α → List (Segment α)
  | 0, _, _, _, _ => []
  | fuel + 1, cur, remaining, cc, budget =>
    match bestCandidate G cur remaining cc budget with
    | none => []
    | some c =>
      ⟨cur, c.next, c.mode, c.attrs.time, c.attrs.cost⟩ ::
        calcPathGo G fuel c.next (remaining.erase c.next) (cc + c.attrs.cost) budget

/-- Runtime errors of the embedded Python code. -/
inductive PyErr : Type where
  | indexError : PyErr
  | keyError : String → PyErr
  | typeError : PyErr
  | validationError : String → PyErr
deriving DecidableEq, Repr

/-- Typed view of _calculate_optimal_path: nodes = list(G.nodes());
current_node = nodes[0] (IndexError on an empty node list); remaining_nodes
= nodes[1:]; current_cost = 0; then the while loop. -/
def calculate_optimal_path {α : Type} [LinearOrderedCommRing α] (G : Graph α)
    (budget : α) : Except PyErr (List (Segment α)) :=
  match G.nodes with
  | [] => Except.error PyErr.indexError
  | c :: rest => Except.ok (calcPathGo G rest.length c rest 0 budget)

/-- Stop record committed by _assign_time_slots for a segment whose visit
starts at minute t: it spans t to t + 60, and carries the time, mode and
cost of the hop that led into it. -/
def mkStop {α : Type} [LinearOrderedCommRing α] (seg : Segment α) (t : α) : Stop α :=
  ⟨seg.toN, t, t + 60, seg.time, seg.mode, seg.cost⟩

/-- Loop state of _assign_time_slots: current_time, the accumulated stops,
and whether the break statement has fired. -/
structure SchedState (α : Type) where
  current_time : α
  stops : List (Stop α)
  broken : Bool

/-- One iteration of the for loop of _assign_time_slots: advance the clock
by the travel time of the segment, commit a 60-minute stop if it ends within
the window, otherwise break (modelled by the broken flag, which freezes the
state for the rest of the fold). -/
def schedStep {α : Type} [LinearOrderedCommRing α] (end_minutes : α)
    (st : SchedState α) (seg : Segment α) : SchedState α :=
  if st.broken then st
  else
    let t := st.current_time + seg.time
    if t + 60 ≤ end_minutes then
      ⟨t + 60, st.stops ++ [mkStop seg t], false⟩
    else ⟨t, st.stops, true⟩

/-- Typed view of _assign_time_slots: convert the window ends to minutes,
fold the loop body over the path, return the committed stops.  Times are
kept as exact minute counts (the source converts them back to clock values
through _minutes_to_time; the raw view below covers the failure of the stop
construction itself). -/
def assign_time_slots {α : Type} [LinearOrderedCommRing α] (path : List (Segment α))
    (start_time end_time : Time) : List (Stop α) :=
  (path.foldl (schedStep ((end_time.toMinutes : Nat) : α))
    ⟨((start_time.toMinutes : Nat) : α), [], false⟩).stops

/-- Transcription of the scheduling procedure as the specification words it:
advance the clock by the travel time; commit a stop spanning clock to
clock + 60 exactly when clock + 60 does not pass the window end, then
advance the clock by 60; at the first segment that does not fit, stop and
discard it and every later segment. -/
def schedulerSpec {α : Type} [LinearOrderedCommRing α] (end_minutes : α) :
    List (Segment α) → α → List (Stop α)
  | [], _ => []
  | seg :: rest, clock =>
    let t := clock + seg.time
    if t + 60 ≤ end_minutes then
      mkStop seg t :: schedulerSpec end_minutes rest (t + 60)
    else []

/-- Sum of the cost fields of the stops, from _calculate_total_cost. -/
def calculate_total_cost {α : Type} [LinearOrderedCommRing α] (stops : List (Stop α)) : α :=
  (stops.map Stop.cost).sum

/-- Composition of the typed selector and scheduler, as optimize_route
chains them, returning the scheduled stops and the total cost. -/
def optimize_route {α : Type} [LinearOrderedCommRing α] (G : Graph α) (budget : α)
    (start_time end_time : Time) : Except PyErr (List (Stop α) × α) :=
  match calculate_optimal_path G budget with
  | Except.error e => Except.error e
  | Except.ok path =>
    let stops := assign_time_slots path start_time end_time
    Except.ok (stops, calculate_total_cost stops)

/-- Number of scheduled stops produced by the typed pipeline (zero when the
pipeline raises). -/
def stopCount {α : Type} [LinearOrderedCommRing α] (G : Graph α) (budget : α)
    (start_time end_time : Time) : Nat :=
  match optimize_route G budget start_time end_time with
  | Except.error _ => 0
  | Except.ok (stops, _) => stops.length

/-- Location model of schemas.py: name, address, and a coordinate pair.
Coordinates are modelled as real numbers because _calculate_distance takes a
square root. -/
structure Location : Type where
  name : String
  address : String
  coordinates : ℝ × ℝ

/-- ItineraryStop schema of schemas.py.  The first six fields are required
(no default); the two travel fields are Optional with default None.  The
datetime.time fields are idealized as minute counts in α. -/
structure SchemaStop (α : Type) where
  location : Location
  start_time : α
  end_time : α
  activity_type : String
  cost : α
  status : String
  travel_time_to_next : Option α
  travel_method_to_next : Option String

/-- Attribute values stored on a networkx edge by _create_travel_graph:
the mode name string, or a numeric distance, time or cost. -/
inductive AttrVal (α : Type) where
  | vstr : String → AttrVal α
  | vnum : α → AttrVal α

/-- Attribute set written by one add_edge call of _create_travel_graph:
keyword arguments mode, distance, time, cost.  A later add_edge on the same
unordered pair replaces the whole set. -/
structure EdgeAttrs (α : Type) where
  mode : String
  distance : α
  time : α
  cost : α

/-- Dictionary view of an edge attribute set: the keys are exactly the four
keyword names of the add_edge call. -/
def attrDict {α : Type} (a : EdgeAttrs α) (k : String) : Option (AttrVal α) :=
  if k = "mode" then some (AttrVal.vstr a.mode)
  else if k = "distance" then some (AttrVal.vnum a.distance)
  else if k = "time" then some (AttrVal.vnum a.time)
  else if k = "cost" then some (AttrVal.vnum a.cost)
  else none

/-- Raw undirected travel graph as networkx holds it: insertion-ordered node
list, and one attribute set per unordered node pair. -/
structure RawGraph (α : Type) where
  nodes : List String
  edges : String → String → Option (EdgeAttrs α)

/-- Empty networkx graph. -/
def RawGraph.empty (α : Type) : RawGraph α := ⟨[], fun _ _ => none⟩

/-- Node insertion as add_edge performs it: append the endpoint to the node
list if it is not yet present. -/
def addNode {α : Type} (g : RawGraph α) (u : String) : RawGraph α :=
  if u ∈ g.nodes then g else ⟨g.nodes ++ [u], g.edges⟩

/-- Semantics of g.add_edge(u, v, **attrs) on an undirected networkx graph:
insert both endpoints, then set the attribute dictionary of the unordered
pair, replacing any previous one. -/
def addEdge {α : Type} (g : RawGraph α) (u v : String) (a : EdgeAttrs α) : RawGraph α :=
  let g1 := addNode (addNode g u) v
  ⟨g1.nodes, fun x y =>
    if (x = u ∧ y = v) ∨ (x = v ∧ y = u) then some a else g1.edges x y⟩

/-- Translation of _calculate_distance: the Euclidean distance of the two
coordinate pairs (the source computes (dlat^2 + dlon^2) ** 0.5). -/
noncomputable def calculate_distance (l1 l2 : Location) : ℝ :=
  Real.sqrt ((l2.coordinates.1 - l1.coordinates.1) ^ 2 +
    (l2.coordinates.2 - l1.coordinates.2) ^ 2)

/-- Attribute set written for one mode: travel time is distance over speed
times 60 minutes, travel cost is distance times cost per km. -/
def edgeAttrsFor {α : Type} [DivisionRing α] (distance : α) (mode : String)
    (p : ModeParams α) : EdgeAttrs α :=
  ⟨mode, distance, distance / p.speed_kmh * 60, distance * p.cost_per_km⟩

/-- Inner mode loop of _create_travel_graph for one ordered location pair:
compute the distance once, then add_edge once per transport mode.  Each call
overwrites the attribute set of the pair, so the loop leaves the attributes
of the last mode, public_transport. -/
noncomputable def addLocationEdges (g : RawGraph ℝ) (l1 l2 : Location) : RawGraph ℝ :=
  let distance := calculate_distance l1 l2
  (transport_modes ℝ).foldl
    (fun g mp => addEdge g l1.name l2.name (edgeAttrsFor distance mp.1 mp.2)) g

/-- Location list built at the top of _create_travel_graph: the starting
point, when given, followed by the locations of the stops. -/
def graphLocations {α : Type} (stops : List (SchemaStop α)) (sp : Option Location) :
    List Location :=
  match sp with
  | some p => p :: stops.map SchemaStop.location
  | none => stops.map SchemaStop.location

/-- Translation of _create_travel_graph: the double enumerate loop over the
location list, skipping equal indices, running the mode loop on each ordered
pair. -/
noncomputable def create_travel_graph (stops : List (SchemaStop ℝ))
    (sp : Option Location) : RawGraph ℝ :=
  let locations := graphLocations stops sp
  locations.enum.foldl
    (fun g il1 =>
      locations.enum.foldl
        (fun g jl2 =>
          if il1.1 ≠ jl2.1 then addLocationEdges g il1.2 jl2.2 else g)
        g)
    (RawGraph.empty ℝ)

/-- Path segment dictionary of the raw selector (never actually built, since
the eligibility subscript raises first; kept for the result type). -/
structure RawSegment (α : Type) where
  fromN : String
  toN : String
  mode : String
  time : α
  cost : α

/-- Raw candidate check, the literal runtime behaviour of
if edge_data and edge_data[mode]["cost"] + current_cost <= budget:
a missing edge is falsy and skips; on a present edge, edge_data[mode] is a
dictionary lookup among the keys mode, distance, time and cost, so a mode
name raises KeyError; were the key somehow present, its value would be a
string or float and the further ["cost"] subscript would raise TypeError. -/
def rawCandStep {α : Type} (g : RawGraph α) (cur : String)
    (best : Option (String × String)) (nm : String × String) :
    Except PyErr (Option (String × String)) :=
  match g.edges cur nm.1 with
  | none => Except.ok best
  | some a =>
    match attrDict a nm.2 with
    | none => Except.error (PyErr.keyError nm.2)
    | some _ => Except.error PyErr.typeError

/-- Candidate scan of the raw selector: the nested loops over
remaining_nodes and the transport mode names, with exception propagation. -/
def rawBestFold {α : Type} (g : RawGraph α) (cur : String) :
    List (String × String) → Option (String × String) →
    Except PyErr (Option (String × String))
  | [], best => Except.ok best
  | nm :: rest, best =>
    match rawCandStep g cur best nm with
    | Except.error e => Except.error e
    | Except.ok best2 => rawBestFold g cur rest best2

/-- Raw candidate scan over all (next_node, mode name) pairs. -/
def rawBestCandidate {α : Type} (g : RawGraph α) (cur : String)
    (remaining : List String) : Except PyErr (Option (String × String)) :=
  rawBestFold g cur (remaining.product modeNames) none

/-- Body of the while loop of _calculate_optimal_path on the raw graph.  The
candidate scan either raises or yields no candidate (it never commits, since
every eligibility check raises before producing one); on a committed
candidate the source would next evaluate
G[current_node][best_next][best_mode]["time"], whose mode subscript raises
the same KeyError, so every branch of the body leaves the loop on its first
iteration and the translation needs no recursion. -/
def rawSelectLoop {α : Type} (g : RawGraph α) (cur : String)
    (remaining : List String) (cc budget : α) : Except PyErr (List (RawSegment α)) :=
  if remaining.isEmpty then Except.ok []
  else
    match rawBestCandidate g cur remaining with
    | Except.error e => Except.error e
    | Except.ok none => Except.ok []
    | Except.ok (some (next, mode)) =>
      match g.edges cur next with
      | none => Except.error (PyErr.keyError next)
      | some a =>
        match attrDict a mode with
        | none => Except.error (PyErr.keyError mode)
        | some _ => Except.error PyErr.typeError

/-- Raw view of _calculate_optimal_path, on the graph as _create_travel_graph
really builds it. -/
def calculate_optimal_path_raw {α : Type} [Zero α] (g : RawGraph α) (budget : α) :
    Except PyErr (List (RawSegment α)) :=
  match g.nodes with
  | [] => Except.error PyErr.indexError
  | c :: rest => rawSelectLoop g c rest 0 budget

/-- Python values handed to the ItineraryStop constructor. -/
inductive PyVal (α : Type) where
  | vstr : String → PyVal α
  | vloc : Location → PyVal α
  | vnum : α → PyVal α
  | vtime : α → PyVal α
  | vnone : PyVal α

/-- Keyword argument lookup. -/
def getField {α : Type} (kwargs : List (String × PyVal α)) (k : String) :
    Option (PyVal α) :=
  (kwargs.find? (fun p => p.1 == k)).map Prod.snd

/-- Required Location field of the schema: present and a Location value. -/
def reqLoc {α : Type} (kwargs : List (String × PyVal α)) (k : String) :
    Except PyErr Location :=
  match getField kwargs k with
  | some (PyVal.vloc l) => Except.ok l
  | _ => Except.error (PyErr.validationError k)

/-- Required time field of the schema. -/
def reqTimeF {α : Type} (kwargs : List (String × PyVal α)) (k : String) :
    Except PyErr α :=
  match getField kwargs k with
  | some (PyVal.vtime t) => Except.ok t
  | _ => Except.error (PyErr.validationError k)

/-- Required string field of the schema. -/
def reqStr {α : Type} (kwargs : List (String × PyVal α)) (k : String) :
    Except PyErr String :=
  match getField kwargs k with
  | some (PyVal.vstr s) => Except.ok s
  | _ => Except.error (PyErr.validationError k)

/-- Required numeric field of the schema. -/
def reqNum {α : Type} (kwargs : List (String × PyVal α)) (k : String) :
    Except PyErr α :=
  match getField kwargs k with
  | some (PyVal.vnum x) => Except.ok x
  | _ => Except.error (PyErr.validationError k)

/-- Optional numeric field of the schema (default None). -/
def optNum {α : Type} (kwargs : List (String × PyVal α)) (k : String) :
    Except PyErr (Option α) :=
  match getField kwargs k with
  | none => Except.ok none
  | some PyVal.vnone => Except.ok none
  | some (PyVal.vnum x) => Except.ok (some x)
  | some _ => Except.error (PyErr.validationError k)

/-- Optional string field of the schema (default None). -/
def optStr {α : Type} (kwargs : List (String × PyVal α)) (k : String) :
    Except PyErr (Option String) :=
  match getField kwargs k with
  | none => Except.ok none
  | some PyVal.vnone => Except.ok none
  | some (PyVal.vstr s) => Except.ok (some s)
  | some _ => Except.error (PyErr.validationError k)

/-- Pydantic validation of an ItineraryStop construction, modelled from the
field list of schemas.py: location, start_time, end_time, activity_type,
cost and status are required with the stated types; the two travel fields
are optional.  Pydantic reports all failures together; this model reports
the first failing field, which suffices here since failure is failure. -/
def validateItineraryStop {α : Type} (kwargs : List (String × PyVal α)) :
    Except PyErr (SchemaStop α) := do
  let location ← reqLoc kwargs "location"
  let start_time ← reqTimeF kwargs "start_time"
  let end_time ← reqTimeF kwargs "end_time"
  let activity_type ← reqStr kwargs "activity_type"
  let cost ← reqNum kwargs "cost"
  let status ← reqStr kwargs "status"
  let ttn ← optNum kwargs "travel_time_to_next"
  let tmn ← optStr kwargs "travel_method_to_next"
  Except.ok ⟨location, start_time, end_time, activity_type, cost, status, ttn, tmn⟩

/-- Raw view of the loop of _assign_time_slots: on a fitting segment the
source constructs ItineraryStop with exactly the keyword arguments below
(location bound to the destination name STRING, and neither activity_type
nor status supplied), which the schema check rejects. -/
def assignRawGo {α : Type} [LinearOrderedCommRing α] (end_minutes : α) :
    List (RawSegment α) → α → Except PyErr (List (SchemaStop α))
  | [], _ => Except.ok []
  | seg :: rest, current =>
    let t := current + seg.time
    if t + 60 ≤ end_minutes then
      match validateItineraryStop
        [("location", PyVal.vstr seg.toN),
         ("start_time", PyVal.vtime t),
         ("end_time", PyVal.vtime (t + 60)),
         ("travel_time_to_next", PyVal.vnum seg.time),
         ("travel_method_to_next", PyVal.vstr seg.mode),
         ("cost", PyVal.vnum seg.cost)] with
      | Except.error e => Except.error e
      | Except.ok stop =>
        match assignRawGo end_minutes rest (t + 60) with
        | Except.error e => Except.error e
        | Except.ok stops => Except.ok (stop :: stops)
    else Except.ok []

/-- Raw view of _assign_time_slots. -/
def assign_time_slots_raw {α : Type} [LinearOrderedCommRing α]
    (path : List (RawSegment α)) (start_time end_time : Time) :
    Except PyErr (List (SchemaStop α)) :=
  assignRawGo ((end_time.toMinutes : Nat) : α) path ((start_time.toMinutes : Nat) : α)

/-- Per-mode table giving walking the stated time and cost and making the
other two modes prohibitively expensive. -/
def exAttrs (t c : ℤ) : Mode → ModeAttrs ℤ := fun m =>
  match m with
  | Mode.walking => ⟨t, c⟩
  | Mode.taxi => ⟨1000, 1000⟩
  | Mode.public_transport => ⟨1000, 1000⟩

/-- Symmetric edge table of a four-node example graph. -/
def exEdge : String → String → Option (Mode → ModeAttrs ℤ) := fun u v =>
  if (u = "A" ∧ v = "X") ∨ (u = "X" ∧ v = "A") then some (exAttrs 50 0)
  else if (u = "A" ∧ v = "Y") ∨ (u = "Y" ∧ v = "A") then some (exAttrs 20 2)
  else if (u = "X" ∧ v = "C") ∨ (u = "C" ∧ v = "X") then some (exAttrs 10 0)
  else if (u = "Y" ∧ v = "C") ∨ (u = "C" ∧ v = "Y") then some (exAttrs 1000 0)
  else if (u = "A" ∧ v = "C") ∨ (u = "C" ∧ v = "A") then some (exAttrs 1000 1000)
  else if (u = "X" ∧ v = "Y") ∨ (u = "Y" ∧ v = "X") then some (exAttrs 1000 1000)
  else none

/-- Four-node example graph used to compare budgets. -/
def exG : Graph ℤ := ⟨["A", "X", "Y", "C"], exEdge⟩

/-- Per-mode table of a two-node example graph. -/
def wAttrs : Mode → ModeAttrs ℤ := fun m =>
  match m with
  | Mode.walking => ⟨10, 0⟩
  | Mode.taxi => ⟨2, 6⟩
  | Mode.public_transport => ⟨4, 1⟩

/-- Two-node example graph. -/
def wG : Graph ℤ :=
  ⟨["A", "B"], fun u v =>
    if (u = "A" ∧ v = "B") ∨ (u = "B" ∧ v = "A") then some wAttrs else none⟩

/-- Example path segments. -/
def segAB : Segment ℤ := ⟨"A", "B", Mode.walking, 0, 0⟩

/-- Second example path segment, the hop connecting the first stop to the
second. -/
def segBC : Segment ℤ := ⟨"B", "C", Mode.taxi, 5, 2⟩

/-- Example location at the origin. -/
def locA : Location := ⟨"A", "addrA", (0, 0)⟩

/-- Example location one unit north. -/
def locB : Location := ⟨"B", "addrB", (0, 1)⟩

/-- Schema stop wrapping a location, with all required fields supplied. -/
def schemaStopOf (l : Location) : SchemaStop ℝ :=
  ⟨l, 0, 0, "sightseeing", 0, "planned", none, none⟩

/-- Example input stop list with two distinct location names. -/
def exStops : List (SchemaStop ℝ) := [schemaStopOf locA, schemaStopOf locB]

/-- Score of a running best candidate, with top standing for the initial
best_score of infinity. -/
def scoreO {α : Type} [LinearOrderedCommRing α] : Option (Cand α) → WithTop α
  | none => (⊤ : WithTop α)
  | some c => (score c.attrs : α)

/-- Soundness of a produced candidate: it was read off an existing edge and
passed the budget test. -/
def CandOK {α : Type} [LinearOrderedCommRing α] (G : Graph α) (cur : String)
    (cc budget : α) (c : Cand α) : Prop :=
  ∃ d, G.edgeData cur c.next = some d ∧ d c.mode = c.attrs ∧ c.attrs.cost + cc ≤ budget

end Defs

section SchedulerProofs

variable {α : Type} [LinearOrderedCommRing α]

/-- After the break statement has fired, the rest of the loop is inert. -/
theorem foldl_schedStep_broken (e : α) :
    ∀ (path : List (Segment α)) (cur : α) (stops : List (Stop α)),
    List.foldl (schedStep e) ⟨cur, stops, true⟩ path = ⟨cur, stops, true⟩ := by
  intro path
  induction path with
  | nil => intro cur stops; rfl
  | cons seg rest ih =>
    intro cur stops
    rw [List.foldl_cons]
    have hs : schedStep e ⟨cur, stops, true⟩ seg = ⟨cur, stops, true⟩ := by
      simp [schedStep]
    rw [hs]
    exact ih cur stops

/-- The loop of _assign_time_slots computes the recursion schedulerSpec. -/
theorem foldl_schedStep_eq (e : α) :
    ∀ (path : List (Segment α)) (cur : α) (acc : List (Stop α)),
    (List.foldl (schedStep e) ⟨cur, acc, false⟩ path).stops =
      acc ++ schedulerSpec e path cur := by
  intro path
  induction path with
  | nil => intro cur acc; simp [schedulerSpec]
  | cons seg rest ih =>
    intro cur acc
    rw [List.foldl_cons]
    by_cases h : cur + seg.time + 60 ≤ e
    · have hs : schedStep e ⟨cur, acc, false⟩ seg =
          ⟨cur + seg.time + 60, acc ++ [mkStop seg (cur + seg.time)], false⟩ := by
        simp [schedStep, h]
      rw [hs, ih]
      simp [schedulerSpec, h]
    · have hs : schedStep e ⟨cur, acc, false⟩ seg = ⟨cur + seg.time, acc, true⟩ := by
        simp [schedStep, h]
      rw [hs, foldl_schedStep_broken]
      simp [schedulerSpec, h]

/-- Unfolded form of the typed scheduler. -/
theorem assign_time_slots_eq_spec (path : List (Segment α)) (s e : Time) :
    assign_time_slots path s e =
      schedulerSpec ((e.toMinutes : Nat) : α) path ((s.toMinutes : Nat) : α) := by
  unfold assign_time_slots
  rw [foldl_schedStep_eq]
  simp

/-- C2: the scheduler walks the segments in order, advancing the clock by
the travel time of each segment, committing a stop over clock to clock + 60
exactly when clock + 60 stays within the window end and then advancing the
clock by 60, and discarding everything from the first segment that does not
fit; in particular a window shorter than 60 minutes yields the empty stop
list as a normal value. -/
theorem assign_time_slots_correct (path : List (Segment α)) (s e : Time) :
    assign_time_slots path s e =
      schedulerSpec ((e.toMinutes : Nat) : α) path ((s.toMinutes : Nat) : α) ∧
    (((e.toMinutes : Nat) : α) - ((s.toMinutes : Nat) : α) < 60 →
      (∀ seg ∈ path, 0 ≤ seg.time) → assign_time_slots path s e = []) := by
  refine ⟨assign_time_slots_eq_spec path s e, ?_⟩
  intro hwin hpos
  rw [assign_time_slots_eq_spec path s e]
  cases path with
  | nil => rfl
  | cons seg rest =>
    have h0 : 0 ≤ seg.time := hpos seg (by simp)
    have hno : ¬ (((s.toMinutes : Nat) : α) + seg.time + 60 ≤ ((e.toMinutes : Nat) : α)) := by
      intro hle
      linarith
    simp [schedulerSpec, hno]

/-- Witness for C2 at a concrete half-hour window. -/
theorem assign_time_slots_correct_witness :
    (((((⟨9, 30⟩ : Time).toMinutes : Nat) : ℤ) - (((⟨9, 0⟩ : Time).toMinutes : Nat) : ℤ) < 60) ∧
      (∀ seg ∈ [segAB], 0 ≤ seg.time)) ∧
    assign_time_slots [segAB] ⟨9, 0⟩ ⟨9, 30⟩ = ([] : List (Stop ℤ)) :=
  ⟨⟨by decide, by decide⟩,
    (assign_time_slots_correct [segAB] ⟨9, 0⟩ ⟨9, 30⟩).2 (by decide) (by decide)⟩

end SchedulerProofs

section SchedulerOrderProofs

variable {α : Type} [LinearOrderedCommRing α]

/-- Shape of the stop at index i: it comes from the segment at index i of
the path, records that segment in its fields, spans 60 minutes and ends
within the window. -/
theorem schedulerSpec_shape (e : α) :
    ∀ (path : List (Segment α)) (clock : α) (i : Nat) (a : Stop α),
    (schedulerSpec e path clock)[i]? = some a →
    ∃ seg, path[i]? = some seg ∧ a.location = seg.toN ∧
      a.travel_time_to_next = seg.time ∧ a.travel_method_to_next = seg.mode ∧
      a.cost = seg.cost ∧ a.end_time = a.start_time + 60 ∧ a.end_time ≤ e := by
  intro path
  induction path with
  | nil => intro clock i a h; simp [schedulerSpec] at h
  | cons seg rest ih =>
    intro clock i a h
    by_cases hfit : clock + seg.time + 60 ≤ e
    · rw [schedulerSpec, if_pos hfit] at h
      cases i with
      | zero =>
        rw [List.getElem?_cons_zero] at h
        have ha : a = mkStop seg (clock + seg.time) := by
          exact (Option.some_injective _ h).symm
        subst ha
        exact ⟨seg, by simp, rfl, rfl, rfl, rfl, rfl, hfit⟩
      | succ j =>
        rw [List.getElem?_cons_succ] at h
        obtain ⟨seg2, hseg2, hrest⟩ := ih (clock + seg.time + 60) j a h
        exact ⟨seg2, by simpa using hseg2, hrest⟩
    · rw [schedulerSpec, if_neg hfit] at h
      simp at h

/-- Start time of the first committed stop: the starting clock plus the
travel time recorded on that stop. -/
theorem schedulerSpec_head (e : α) :
    ∀ (path : List (Segment α)) (clock : α) (a : Stop α),
    (schedulerSpec e path clock)[0]? = some a →
    a.start_time = clock + a.travel_time_to_next := by
  intro path
  cases path with
  | nil => intro clock a h; simp [schedulerSpec] at h
  | cons seg rest =>
    intro clock a h
    by_cases hfit : clock + seg.time + 60 ≤ e
    · rw [schedulerSpec, if_pos hfit, List.getElem?_cons_zero] at h
      have ha : a = mkStop seg (clock + seg.time) := by
        exact (Option.some_injective _ h).symm
      subst ha
      rfl
    · rw [schedulerSpec, if_neg hfit] at h
      simp at h

/-- Chaining of consecutive committed stops: the later one starts at the end
of the earlier one plus the travel time recorded on the later one. -/
theorem schedulerSpec_chain (e : α) :
    ∀ (path : List (Segment α)) (clock : α) (i : Nat) (a b : Stop α),
    (schedulerSpec e path clock)[i]? = some a →
    (schedulerSpec e path clock)[i + 1]? = some b →
    b.start_time = a.end_time + b.travel_time_to_next := by
  intro path
  induction path with
  | nil => intro clock i a b ha hb; simp [schedulerSpec] at ha
  | cons seg rest ih =>
    intro clock i a b ha hb
    by_cases hfit : clock + seg.time + 60 ≤ e
    · rw [schedulerSpec, if_pos hfit] at ha hb
      cases i with
      | zero =>
        rw [List.getElem?_cons_zero] at ha
        have ha2 : a = mkStop seg (clock + seg.time) := by
          exact (Option.some_injective _ ha).symm
        subst ha2
        rw [List.getElem?_cons_succ] at hb
        have := schedulerSpec_head e rest (clock + seg.time + 60) b hb
        simpa [mkStop] using this
      | succ j =>
        rw [List.getElem?_cons_succ] at ha hb
        exact ih (clock + seg.time + 60) j a b ha hb
    · rw [schedulerSpec, if_neg hfit] at ha
      simp at ha

/-- C3 (amended): the committed stops are strictly increasing and
non-overlapping in time, never end after the window end, and consecutive
stops chain exactly: the later stop starts at the end of the earlier one
plus the travel time of the hop between them — the time and mode of that
hop being recorded on the ARRIVING stop (its travel_..._to_next fields),
not on the previous one as the specification words it. -/
theorem scheduled_stops_ordered (path : List (Segment α)) (s e : Time)
    (hpos : ∀ seg ∈ path, 0 ≤ seg.time) :
    (∀ (i : Nat) (a b : Stop α), (assign_time_slots path s e)[i]? = some a →
      (assign_time_slots path s e)[i + 1]? = some b →
      a.start_time < b.start_time ∧ a.end_time ≤ b.start_time ∧
      b.start_time = a.end_time + b.travel_time_to_next) ∧
    (∀ (i : Nat) (a : Stop α), (assign_time_slots path s e)[i]? = some a →
      a.start_time < a.end_time ∧ a.end_time ≤ ((e.toMinutes : Nat) : α)) ∧
    (∀ (i : Nat) (a : Stop α), (assign_time_slots path s e)[i]? = some a →
      ∃ seg, path[i]? = some seg ∧ a.travel_time_to_next = seg.time ∧
        a.travel_method_to_next = seg.mode ∧ a.location = seg.toN) := by
  rw [assign_time_slots_eq_spec path s e]
  refine ⟨?_, ?_, ?_⟩
  · intro i a b ha hb
    have hchain := schedulerSpec_chain _ path _ i a b ha hb
    obtain ⟨sega, hsega, _, hta, _, _, henda, _⟩ := schedulerSpec_shape _ path _ i a ha
    obtain ⟨segb, hsegb, _, htb, _, _, hendb, _⟩ := schedulerSpec_shape _ path _ (i + 1) b hb
    have hbpos : 0 ≤ b.travel_time_to_next := by
      rw [htb]
      exact hpos segb (List.getElem?_mem hsegb)
    constructor
    · rw [hchain, henda]
      linarith
    constructor
    · rw [hchain]
      linarith
    · exact hchain
  · intro i a ha
    obtain ⟨sega, hsega, _, _, _, _, henda, hle⟩ := schedulerSpec_shape _ path _ i a ha
    constructor
    · rw [henda]
      linarith
    · exact hle
  · intro i a ha
    obtain ⟨sega, hsega, hloc, hta, hma, _, _, _⟩ := schedulerSpec_shape _ path _ i a ha
    exact ⟨sega, hsega, hta, hma, hloc⟩

/-- Witness for the amended C3 at a concrete two-segment path. -/
theorem scheduled_stops_ordered_witness :
    (∀ seg ∈ [segAB, segBC], 0 ≤ seg.time) ∧
    ((∀ (i : Nat) (a b : Stop ℤ), (assign_time_slots [segAB, segBC] ⟨0, 0⟩ ⟨10, 0⟩)[i]? = some a →
      (assign_time_slots [segAB, segBC] ⟨0, 0⟩ ⟨10, 0⟩)[i + 1]? = some b →
      a.start_time < b.start_time ∧ a.end_time ≤ b.start_time ∧
      b.start_time = a.end_time + b.travel_time_to_next) ∧
    (∀ (i : Nat) (a : Stop ℤ), (assign_time_slots [segAB, segBC] ⟨0, 0⟩ ⟨10, 0⟩)[i]? = some a →
      a.start_time < a.end_time ∧
      a.end_time ≤ (((Time.mk 10 0).toMinutes : Nat) : ℤ)) ∧
    (∀ (i : Nat) (a : Stop ℤ), (assign_time_slots [segAB, segBC] ⟨0, 0⟩ ⟨10, 0⟩)[i]? = some a →
      ∃ seg, [segAB, segBC][i]? = some seg ∧ a.travel_time_to_next = seg.time ∧
        a.travel_method_to_next = seg.mode ∧ a.location = seg.toN)) :=
  ⟨by decide, scheduled_stops_ordered [segAB, segBC] ⟨0, 0⟩ ⟨10, 0⟩ (by decide)⟩

/-- C3 counterexample: with the two-segment path segAB then segBC, the hop
connecting the first committed stop to the second is segBC (taxi, 5
minutes), but the first stop carries walking and 0 in its
travel_..._to_next fields — the code records the ARRIVING hop on each stop,
so the connecting hop is found on the second stop, not on the first as the
claim states. -/
theorem scheduled_stops_chain_counterexample :
    ((assign_time_slots [segAB, segBC] ⟨0, 0⟩ ⟨10, 0⟩)[0]?).map Stop.travel_method_to_next =
      some Mode.walking ∧
    ((assign_time_slots [segAB, segBC] ⟨0, 0⟩ ⟨10, 0⟩)[0]?).map Stop.travel_time_to_next =
      some 0 ∧
    ((assign_time_slots [segAB, segBC] ⟨0, 0⟩ ⟨10, 0⟩)[1]?).map Stop.travel_method_to_next =
      some Mode.taxi ∧
    segBC.mode = Mode.taxi ∧ segBC.time = 5 ∧
    Mode.walking ≠ Mode.taxi := by decide

end SchedulerOrderProofs

section TotalCostProofs

variable {α : Type} [LinearOrderedCommRing α]

/-- Cost fields of the committed stops are exactly the travel costs of the
committed prefix of the path. -/
theorem schedulerSpec_costs (e : α) :
    ∀ (path : List (Segment α)) (clock : α),
    (schedulerSpec e path clock).map Stop.cost =
      ((path.take (schedulerSpec e path clock).length).map Segment.cost) := by
  intro path
  induction path with
  | nil => intro clock; simp [schedulerSpec]
  | cons seg rest ih =>
    intro clock
    by_cases hfit : clock + seg.time + 60 ≤ e
    · rw [schedulerSpec, if_pos hfit]
      simp only [List.map_cons, List.length_cons, List.take_succ_cons]
      rw [ih]
      rfl
    · rw [schedulerSpec, if_neg hfit]
      simp

/-- C7 (amended): _calculate_total_cost sums the cost fields of the
scheduled stops, and each committed stop carries in that field the
travel_cost of the hop that leads into it (segment["cost"]), so the
reported total equals the sum of the travel costs of the committed hops;
the attraction costs of the input stops are nowhere aggregated. -/
theorem total_cost_sums_travel_costs (path : List (Segment α)) (s e : Time) :
    calculate_total_cost (assign_time_slots path s e) =
      ((path.take (assign_time_slots path s e).length).map Segment.cost).sum := by
  unfold calculate_total_cost
  rw [assign_time_slots_eq_spec path s e, schedulerSpec_costs]

/-- C7 counterexample: a single segment whose hop travel cost is 5 (and
whose destination has no attraction cost anywhere in the pipeline) yields
total_cost 5, not 0 — the travel cost IS added into total_cost, since each
committed stop cost field holds segment["cost"]. -/
theorem total_cost_counterexample :
    calculate_total_cost
        (assign_time_slots [(⟨"A", "B", Mode.taxi, 0, 5⟩ : Segment ℤ)] ⟨0, 0⟩ ⟨2, 0⟩) = 5 ∧
    ((assign_time_slots [(⟨"A", "B", Mode.taxi, 0, 5⟩ : Segment ℤ)] ⟨0, 0⟩ ⟨2, 0⟩).map
        Stop.cost) = [5] ∧
    (5 : ℤ) ≠ 0 := by decide

end TotalCostProofs

section SelectorProofs

variable {α : Type} [LinearOrderedCommRing α]

/-- Every mode belongs to the iteration list of transport_modes. -/
theorem mode_mem_modeList (m : Mode) : m ∈ modeList := by
  cases m <;> simp [modeList]

/-- A candidate produced by one scan step is either the running best or a
sound candidate read off the scanned pair. -/
theorem candStep_some (G : Graph α) (cur : String) (cc budget : α)
    (best : Option (Cand α)) (nm : String × Mode) (c : Cand α)
    (h : candStep G cur cc budget best nm = some c) :
    best = some c ∨ (nm.1 = c.next ∧ nm.2 = c.mode ∧ CandOK G cur cc budget c) := by
  cases hG : G.edgeData cur nm.1 with
  | none => simp only [candStep, hG] at h; exact Or.inl h
  | some d =>
    simp only [candStep, hG] at h
    by_cases helig : (d nm.2).cost + cc ≤ budget
    · rw [if_pos helig] at h
      cases best with
      | none =>
        have hc : (⟨nm.1, nm.2, d nm.2⟩ : Cand α) = c := Option.some_injective _ h
        subst hc
        exact Or.inr ⟨rfl, rfl, d, hG, rfl, helig⟩
      | some c0 =>
        dsimp only at h
        by_cases hlt : score (d nm.2) < score c0.attrs
        · rw [if_pos hlt] at h
          have hc : (⟨nm.1, nm.2, d nm.2⟩ : Cand α) = c := Option.some_injective _ h
          subst hc
          exact Or.inr ⟨rfl, rfl, d, hG, rfl, helig⟩
        · rw [if_neg hlt] at h
          exact Or.inl h
    · rw [if_neg helig] at h
      exact Or.inl h

/-- A candidate produced by the whole scan is sound and names a scanned
pair. -/
theorem foldl_candStep_some (G : Graph α) (cur : String) (cc budget : α) :
    ∀ (l : List (String × Mode)) (best : Option (Cand α)) (c : Cand α),
    List.foldl (candStep G cur cc budget) best l = some c →
    best = some c ∨ ((c.next, c.mode) ∈ l ∧ CandOK G cur cc budget c) := by
  intro l
  induction l with
  | nil => intro best c h; exact Or.inl h
  | cons nm rest ih =>
    intro best c h
    rw [List.foldl_cons] at h
    rcases ih (candStep G cur cc budget best nm) c h with h2 | h2
    · rcases candStep_some G cur cc budget best nm c h2 with h3 | h3
      · exact Or.inl h3
      · refine Or.inr ⟨?_, h3.2.2⟩
        have : nm = (c.next, c.mode) := by
          rcases h3 with ⟨h31, h32, _⟩
          cases nm
          simp_all
        rw [← this]
        simp
    · exact Or.inr ⟨List.mem_cons_of_mem _ h2.1, h2.2⟩

/-- Unfolding of the scan step on a missing edge. -/
theorem candStep_edge_none (G : Graph α) (cur : String) (cc budget : α)
    (best : Option (Cand α)) (nm : String × Mode)
    (hG : G.edgeData cur nm.1 = none) :
    candStep G cur cc budget best nm = best := by
  simp [candStep, hG]

/-- Unfolding of the scan step on an ineligible pair. -/
theorem candStep_inelig (G : Graph α) (cur : String) (cc budget : α)
    (best : Option (Cand α)) (nm : String × Mode) (d : Mode → ModeAttrs α)
    (hG : G.edgeData cur nm.1 = some d)
    (helig : ¬((d nm.2).cost + cc ≤ budget)) :
    candStep G cur cc budget best nm = best := by
  cases best <;> simp [candStep, hG, helig]

/-- Unfolding of the scan step on an eligible pair with empty best. -/
theorem candStep_elig_none (G : Graph α) (cur : String) (cc budget : α)
    (nm : String × Mode) (d : Mode → ModeAttrs α)
    (hG : G.edgeData cur nm.1 = some d)
    (helig : (d nm.2).cost + cc ≤ budget) :
    candStep G cur cc budget none nm = some ⟨nm.1, nm.2, d nm.2⟩ := by
  simp [candStep, hG, helig]

/-- Unfolding of the scan step on an eligible pair strictly beating the
running best. -/
theorem candStep_elig_lt (G : Graph α) (cur : String) (cc budget : α)
    (c0 : Cand α) (nm : String × Mode) (d : Mode → ModeAttrs α)
    (hG : G.edgeData cur nm.1 = some d)
    (helig : (d nm.2).cost + cc ≤ budget)
    (hlt : score (d nm.2) < score c0.attrs) :
    candStep G cur cc budget (some c0) nm = some ⟨nm.1, nm.2, d nm.2⟩ := by
  simp [candStep, hG, helig, hlt]

/-- Unfolding of the scan step on an eligible pair not beating the running
best. -/
theorem candStep_elig_ge (G : Graph α) (cur : String) (cc budget : α)
    (c0 : Cand α) (nm : String × Mode) (d : Mode → ModeAttrs α)
    (hG : G.edgeData cur nm.1 = some d)
    (helig : (d nm.2).cost + cc ≤ budget)
    (hlt : ¬(score (d nm.2) < score c0.attrs)) :
    candStep G cur cc budget (some c0) nm = some c0 := by
  simp [candStep, hG, helig, hlt]

/-- The scan step never increases the running best score. -/
theorem scoreO_candStep_le (G : Graph α) (cur : String) (cc budget : α)
    (best : Option (Cand α)) (nm : String × Mode) :
    scoreO (candStep G cur cc budget best nm) ≤ scoreO best := by
  cases hG : G.edgeData cur nm.1 with
  | none => rw [candStep_edge_none G cur cc budget best nm hG]
  | some d =>
    by_cases helig : (d nm.2).cost + cc ≤ budget
    · cases best with
      | none =>
        rw [candStep_elig_none G cur cc budget nm d hG helig]
        exact le_top
      | some c0 =>
        by_cases hlt : score (d nm.2) < score c0.attrs
        · rw [candStep_elig_lt G cur cc budget c0 nm d hG helig hlt]
          simp only [scoreO]
          exact_mod_cast le_of_lt hlt
        · rw [candStep_elig_ge G cur cc budget c0 nm d hG helig hlt]
    · rw [candStep_inelig G cur cc budget best nm d hG helig]

/-- The whole scan never increases the running best score. -/
theorem scoreO_foldl_le (G : Graph α) (cur : String) (cc budget : α) :
    ∀ (l : List (String × Mode)) (best : Option (Cand α)),
    scoreO (List.foldl (candStep G cur cc budget) best l) ≤ scoreO best := by
  intro l
  induction l with
  | nil => intro best; exact le_refl _
  | cons nm rest ih =>
    intro best
    rw [List.foldl_cons]
    exact le_trans (ih _) (scoreO_candStep_le G cur cc budget best nm)

/-- After scanning an eligible pair, the running best score is at most the
score of that pair. -/
theorem scoreO_candStep_elig (G : Graph α) (cur : String) (cc budget : α)
    (best : Option (Cand α)) (nm : String × Mode) (d : Mode → ModeAttrs α)
    (hG : G.edgeData cur nm.1 = some d) (helig : (d nm.2).cost + cc ≤ budget) :
    scoreO (candStep G cur cc budget best nm) ≤ ((score (d nm.2) : α) : WithTop α) := by
  cases best with
  | none =>
    rw [candStep_elig_none G cur cc budget nm d hG helig]
    exact le_refl _
  | some c0 =>
    by_cases hlt : score (d nm.2) < score c0.attrs
    · rw [candStep_elig_lt G cur cc budget c0 nm d hG helig hlt]
      exact le_refl _
    · rw [candStep_elig_ge G cur cc budget c0 nm d hG helig hlt]
      simp only [scoreO]
      exact_mod_cast not_lt.1 hlt

/-- The final best score is at most the score of every eligible scanned
pair. -/
theorem foldl_candStep_min (G : Graph α) (cur : String) (cc budget : α) :
    ∀ (l : List (String × Mode)) (best : Option (Cand α)) (nm : String × Mode)
      (d : Mode → ModeAttrs α), nm ∈ l → G.edgeData cur nm.1 = some d →
    (d nm.2).cost + cc ≤ budget →
    scoreO (List.foldl (candStep G cur cc budget) best l) ≤ ((score (d nm.2) : α) : WithTop α) := by
  intro l
  induction l with
  | nil => intro best nm d hmem; exact absurd hmem (List.not_mem_nil nm)
  | cons nm0 rest ih =>
    intro best nm d hmem hG helig
    rw [List.foldl_cons]
    rcases List.mem_cons.1 hmem with h | h
    · subst h
      exact le_trans (scoreO_foldl_le G cur cc budget rest _)
        (scoreO_candStep_elig G cur cc budget best nm d hG helig)
    · exact ih _ nm d h hG helig

/-- An empty scan result means the running best was empty and no scanned
pair was eligible. -/
theorem foldl_candStep_none (G : Graph α) (cur : String) (cc budget : α) :
    ∀ (l : List (String × Mode)) (best : Option (Cand α)),
    List.foldl (candStep G cur cc budget) best l = none →
    best = none ∧ ∀ nm ∈ l, ∀ d : Mode → ModeAttrs α,
      G.edgeData cur nm.1 = some d → ¬((d nm.2).cost + cc ≤ budget) := by
  intro l
  induction l with
  | nil =>
    intro best h
    exact ⟨h, by intro nm hmem; exact absurd hmem (List.not_mem_nil nm)⟩
  | cons nm0 rest ih =>
    intro best h
    rw [List.foldl_cons] at h
    obtain ⟨hstep, hrest⟩ := ih _ h
    have hbest : best = none ∧ ∀ d : Mode → ModeAttrs α,
        G.edgeData cur nm0.1 = some d → ¬((d nm0.2).cost + cc ≤ budget) := by
      cases hG : G.edgeData cur nm0.1 with
      | none =>
        rw [candStep_edge_none G cur cc budget best nm0 hG] at hstep
        exact ⟨hstep, by intro d hd; simp [hG] at hd⟩
      | some d =>
        by_cases helig : (d nm0.2).cost + cc ≤ budget
        · cases best with
          | none =>
            rw [candStep_elig_none G cur cc budget nm0 d hG helig] at hstep
            simp at hstep
          | some c0 =>
            by_cases hlt : score (d nm0.2) < score c0.attrs
            · rw [candStep_elig_lt G cur cc budget c0 nm0 d hG helig hlt] at hstep
              simp at hstep
            · rw [candStep_elig_ge G cur cc budget c0 nm0 d hG helig hlt] at hstep
              simp at hstep
        · rw [candStep_inelig G cur cc budget best nm0 d hG helig] at hstep
          refine ⟨hstep, ?_⟩
          intro d2 hd2
          have hdd : d2 = d := (Option.some_injective _ hd2).symm
          rw [hdd]
          exact helig
    refine ⟨hbest.1, ?_⟩
    intro nm hmem d hd
    rcases List.mem_cons.1 hmem with h2 | h2
    · subst h2; exact hbest.2 d hd
    · exact hrest nm h2 d hd

/-- Converse: if no scanned pair is eligible, the scan starting from an
empty best yields none. -/
theorem foldl_candStep_none_intro (G : Graph α) (cur : String) (cc budget : α) :
    ∀ (l : List (String × Mode)),
    (∀ nm ∈ l, ∀ d : Mode → ModeAttrs α,
      G.edgeData cur nm.1 = some d → ¬((d nm.2).cost + cc ≤ budget)) →
    List.foldl (candStep G cur cc budget) none l = none := by
  intro l
  induction l with
  | nil => intro h; rfl
  | cons nm0 rest ih =>
    intro h
    rw [List.foldl_cons]
    have hstep : candStep G cur cc budget none nm0 = none := by
      cases hG : G.edgeData cur nm0.1 with
      | none => exact candStep_edge_none G cur cc budget none nm0 hG
      | some d =>
        exact candStep_inelig G cur cc budget none nm0 d hG
          (h nm0 (List.mem_cons_self nm0 rest) d hG)
    rw [hstep]
    exact ih (fun nm hmem => h nm (List.mem_cons_of_mem nm0 hmem))

end SelectorProofs

section SelectorClaims

variable {α : Type} [LinearOrderedCommRing α]

/-- Running cost invariant of the main loop: if the cost so far is within
budget, adding the travel costs of the remaining committed segments stays
within budget. -/
theorem calcPathGo_cost_le (G : Graph α) (budget : α) :
    ∀ (fuel : Nat) (cur : String) (remaining : List String) (cc : α),
    cc ≤ budget →
    cc + ((calcPathGo G fuel cur remaining cc budget).map Segment.cost).sum ≤ budget := by
  intro fuel
  induction fuel with
  | zero => intro cur remaining cc hcc; simpa [calcPathGo] using hcc
  | succ n ih =>
    intro cur remaining cc hcc
    rw [calcPathGo]
    cases hbc : bestCandidate G cur remaining cc budget with
    | none => simpa using hcc
    | some c =>
      have hok : CandOK G cur cc budget c := by
        rcases foldl_candStep_some G cur cc budget _ none c hbc with h | h
        · exact absurd h.symm (Option.some_ne_none c)
        · exact h.2
      obtain ⟨d, hd, hattrs, hcost⟩ := hok
      have := ih c.next (remaining.erase c.next) (cc + c.attrs.cost) (by linarith)
      simp only [List.map_cons, List.sum_cons]
      linarith

/-- Commit-time invariant: the segment at index i was committed only when
its travel cost plus the cost of all earlier committed segments stayed
within budget. -/
theorem calcPathGo_commit_le (G : Graph α) (budget : α) :
    ∀ (fuel : Nat) (cur : String) (remaining : List String) (cc : α) (i : Nat)
      (seg : Segment α),
    (calcPathGo G fuel cur remaining cc budget)[i]? = some seg →
    seg.cost + (cc +
      (((calcPathGo G fuel cur remaining cc budget).take i).map Segment.cost).sum) ≤ budget := by
  intro fuel
  induction fuel with
  | zero => intro cur remaining cc i seg h; simp [calcPathGo] at h
  | succ n ih =>
    intro cur remaining cc i seg h
    rw [calcPathGo] at h ⊢
    cases hbc : bestCandidate G cur remaining cc budget with
    | none => rw [hbc] at h; simp at h
    | some c =>
      rw [hbc] at h
      dsimp only at h ⊢
      have hok : CandOK G cur cc budget c := by
        rcases foldl_candStep_some G cur cc budget _ none c hbc with h2 | h2
        · exact absurd h2.symm (Option.some_ne_none c)
        · exact h2.2
      obtain ⟨d, hd, hattrs, hcost⟩ := hok
      cases i with
      | zero =>
        rw [List.getElem?_cons_zero] at h
        have hseg : (⟨cur, c.next, c.mode, c.attrs.time, c.attrs.cost⟩ : Segment α) = seg :=
          Option.some_injective _ h
        subst hseg
        simpa using hcost
      | succ j =>
        rw [List.getElem?_cons_succ] at h
        have := ih c.next (remaining.erase c.next) (cc + c.attrs.cost) j seg h
        simp only [List.take_succ_cons, List.map_cons, List.sum_cons]
        linarith

/-- C1: for every graph and every budget of at least 0, the selector commits
a hop only when its travel cost added to the cost of the previously
committed segments stays within budget, and consequently the travel costs
of the returned path sum to at most the budget. -/
theorem optimal_path_within_budget (G : Graph α) (budget : α) (hb : 0 ≤ budget)
    (segs : List (Segment α)) (h : calculate_optimal_path G budget = Except.ok segs) :
    (∀ (i : Nat) (seg : Segment α), segs[i]? = some seg →
      seg.cost + ((segs.take i).map Segment.cost).sum ≤ budget) ∧
    ((segs.map Segment.cost).sum ≤ budget) := by
  unfold calculate_optimal_path at h
  cases hn : G.nodes with
  | nil => rw [hn] at h; exact absurd h (by simp)
  | cons c rest =>
    rw [hn] at h
    have hsegs : calcPathGo G rest.length c rest 0 budget = segs := by
      exact Except.ok.injEq .. ▸ (by injection h)
    constructor
    · intro i seg hseg
      rw [← hsegs] at hseg ⊢
      have := calcPathGo_commit_le G budget rest.length c rest 0 i seg hseg
      linarith
    · rw [← hsegs]
      have := calcPathGo_cost_le G budget rest.length c rest 0 hb
      linarith

/-- Witness for C1 at the two-node example graph and budget 100. -/
theorem optimal_path_within_budget_witness :
    ((0 : ℤ) ≤ 100 ∧ calculate_optimal_path wG (100 : ℤ) =
      Except.ok [⟨"A", "B", Mode.walking, 10, 0⟩]) ∧
    (([(⟨"A", "B", Mode.walking, 10, 0⟩ : Segment ℤ)].map Segment.cost).sum ≤ 100) :=
  ⟨⟨by decide, by rfl⟩,
    (optimal_path_within_budget wG 100 (by decide) [⟨"A", "B", Mode.walking, 10, 0⟩]
      (by rfl)).2⟩

end SelectorClaims

section SelectorMinScore

variable {α : Type} [LinearOrderedCommRing α]

/-- C4: whenever an iteration of the selector loop commits a segment, that
segment was read off an existing edge, passed the budget test, and its
score time + 10 x cost is minimal among all (remaining node, mode)
candidates that pass the budget test at that iteration. -/
theorem selector_picks_min_score (G : Graph α) (budget : α) (fuel : Nat)
    (cur : String) (remaining : List String) (cc : α) (seg : Segment α)
    (rest : List (Segment α))
    (h : calcPathGo G fuel cur remaining cc budget = seg :: rest) :
    (seg.fromN = cur ∧ seg.toN ∈ remaining ∧
      ∃ d, G.edgeData cur seg.toN = some d ∧ d seg.mode = ⟨seg.time, seg.cost⟩ ∧
        seg.cost + cc ≤ budget) ∧
    (∀ (n : String) (m : Mode) (d : Mode → ModeAttrs α), n ∈ remaining →
      G.edgeData cur n = some d → (d m).cost + cc ≤ budget →
      seg.time + seg.cost * 10 ≤ (d m).time + (d m).cost * 10) := by
  cases fuel with
  | zero => rw [calcPathGo] at h; exact absurd h (by simp)
  | succ n =>
    rw [calcPathGo] at h
    cases hbc : bestCandidate G cur remaining cc budget with
    | none => rw [hbc] at h; exact absurd h (by simp)
    | some c =>
      rw [hbc] at h
      dsimp only at h
      have hseg : seg = ⟨cur, c.next, c.mode, c.attrs.time, c.attrs.cost⟩ := by
        exact List.head_eq_of_cons_eq h.symm
      have hmem : (c.next, c.mode) ∈ remaining.product modeList ∧
          CandOK G cur cc budget c := by
        rcases foldl_candStep_some G cur cc budget _ none c hbc with h2 | h2
        · exact absurd h2.symm (Option.some_ne_none c)
        · exact h2
      obtain ⟨hmem2, d, hd, hattrs, hcost⟩ := hmem
      have hmemr : c.next ∈ remaining := (List.mem_product.1 hmem2).1
      constructor
      · subst hseg
        refine ⟨rfl, hmemr, d, hd, ?_, by simpa using hcost⟩
        rw [hattrs]
      · intro n2 m2 d2 hmem3 hd2 helig2
        have hmin := foldl_candStep_min G cur cc budget (remaining.product modeList)
          none (n2, m2) d2
          (List.mem_product.2 ⟨hmem3, mode_mem_modeList m2⟩) hd2 helig2
        rw [show List.foldl (candStep G cur cc budget) none (remaining.product modeList) =
          some c from hbc] at hmin
        have hmin2 : score c.attrs ≤ score (d2 m2) := by
          simp only [scoreO] at hmin
          exact_mod_cast hmin
        subst hseg
        simpa [score] using hmin2

/-- Witness for C4 at the two-node example graph. -/
theorem selector_picks_min_score_witness :
    calcPathGo wG 1 "A" ["B"] (0 : ℤ) 100 =
      (⟨"A", "B", Mode.walking, 10, 0⟩ : Segment ℤ) :: [] ∧
    (∀ (n : String) (m : Mode) (d : Mode → ModeAttrs ℤ), n ∈ ["B"] →
      wG.edgeData "A" n = some d → (d m).cost + (0 : ℤ) ≤ 100 →
      (10 : ℤ) + 0 * 10 ≤ (d m).time + (d m).cost * 10) := by
  constructor
  · rfl
  · have := (selector_picks_min_score wG 100 1 "A" ["B"] 0
      ⟨"A", "B", Mode.walking, 10, 0⟩ [] (by rfl)).2
    simpa using this

end SelectorMinScore

section SelectorPartial

variable {α : Type} [LinearOrderedCommRing α]

/-- C6: the selector never raises once it has a starting node (its result is
a normal Except.ok value for every nonempty node list), and at any loop
state where no (node, mode) candidate passes the budget test it returns the
partial path committed so far, that is, the loop contributes no further
segments. -/
theorem selector_stops_early_on_budget (G : Graph α) (budget : α) :
    (G.nodes ≠ [] → ∃ segs, calculate_optimal_path G budget = Except.ok segs) ∧
    (∀ (fuel : Nat) (cur : String) (remaining : List String) (cc : α),
      (∀ n ∈ remaining, ∀ (m : Mode), ∀ d : Mode → ModeAttrs α,
        G.edgeData cur n = some d → ¬((d m).cost + cc ≤ budget)) →
      calcPathGo G fuel cur remaining cc budget = []) := by
  constructor
  · intro hne
    unfold calculate_optimal_path
    cases hn : G.nodes with
    | nil => exact absurd hn hne
    | cons c rest => exact ⟨_, rfl⟩
  · intro fuel cur remaining cc hinelig
    have hbc : bestCandidate G cur remaining cc budget = none := by
      unfold bestCandidate
      apply foldl_candStep_none_intro
      intro nm hmem d hd
      exact hinelig nm.1 (List.mem_product.1 hmem).1 nm.2 d hd
    cases fuel with
    | zero => rfl
    | succ n => rw [calcPathGo, hbc]

/-- Witness for C6: at the two-node example graph with a negative budget no
candidate is eligible, and the selector returns the empty path normally. -/
theorem selector_stops_early_on_budget_witness :
    (wG.nodes ≠ [] ∧
      (∀ n ∈ ["B"], ∀ (m : Mode), ∀ d : Mode → ModeAttrs ℤ,
        wG.edgeData "A" n = some d → ¬((d m).cost + (0 : ℤ) ≤ -1))) ∧
    calcPathGo wG 1 "A" ["B"] (0 : ℤ) (-1) = [] := by
  have hinelig : ∀ n ∈ ["B"], ∀ (m : Mode), ∀ d : Mode → ModeAttrs ℤ,
      wG.edgeData "A" n = some d → ¬((d m).cost + (0 : ℤ) ≤ -1) := by
    intro n hn m d hd
    have hn2 : n = "B" := by simpa using hn
    subst hn2
    have hd2 : d = wAttrs := by
      have h3 : some wAttrs = some d := hd
      exact (Option.some_injective _ h3).symm
    subst hd2
    cases m <;> decide
  exact ⟨⟨by decide, hinelig⟩,
    (selector_stops_early_on_budget wG (-1)).2 1 "A" ["B"] 0 hinelig⟩

end SelectorPartial

section BudgetMonotonicity

variable {α : Type} [LinearOrderedCommRing α]

/-- C8 counterexample: on the four-node example graph with the window
0:00 to 3:20, raising the budget from 1 to 10 changes the greedy choice at
the first iteration (a cheaper-scoring but costlier hop becomes eligible),
sending the tour through a 1000-minute hop, so the higher budget yields
FEWER scheduled stops (1) than the lower budget (2). -/
theorem stop_count_not_monotone :
    (1 : ℤ) ≤ 10 ∧
    stopCount exG 10 ⟨0, 0⟩ ⟨3, 20⟩ < stopCount exG 1 ⟨0, 0⟩ ⟨3, 20⟩ := by decide

/-- C8 (amended): reducing the budget only shrinks the per-iteration
eligible candidate set — every (node, mode) hop eligible at the lower
budget is eligible at the higher one, and a loop state with no eligible
candidate at the higher budget has none at the lower either; the
end-to-end scheduled stop count, however, is NOT monotone in the budget,
because the greedy choice itself changes. -/
theorem eligibility_monotone_in_budget (G : Graph α) (cur : String)
    (remaining : List String) (cc b1 b2 : α) (h12 : b1 ≤ b2) :
    (∀ (n : String) (m : Mode), eligiblePair G cur cc b1 n m →
      eligiblePair G cur cc b2 n m) ∧
    (bestCandidate G cur remaining cc b2 = none →
      bestCandidate G cur remaining cc b1 = none) := by
  constructor
  · intro n m h
    obtain ⟨d, hd, hle⟩ := h
    exact ⟨d, hd, le_trans hle h12⟩
  · intro h2
    have hall := (foldl_candStep_none G cur cc b2 _ none h2).2
    unfold bestCandidate
    apply foldl_candStep_none_intro
    intro nm hmem d hd hle1
    exact hall nm hmem d hd (le_trans hle1 h12)

/-- Witness for the amended C8: with budgets -2 and -1 on the four-node
example graph, no candidate is eligible at either budget, and the
implication instantiates concretely. -/
theorem eligibility_monotone_in_budget_witness :
    ((-2 : ℤ) ≤ -1 ∧ bestCandidate exG "A" ["X", "Y", "C"] (0 : ℤ) (-1) = none) ∧
    bestCandidate exG "A" ["X", "Y", "C"] (0 : ℤ) (-2) = none :=
  ⟨⟨by decide, by decide⟩,
    (eligibility_monotone_in_budget exG "A" ["X", "Y", "C"] 0 (-2) (-1)
      (by decide)).2 (by decide)⟩

end BudgetMonotonicity

section RawGraphBasics

/-- A predicate preserved by every step of a fold is preserved by the
fold. -/
theorem foldl_preserve {β γ : Type} (P : γ → Prop) (f : γ → β → γ) :
    ∀ (l : List β), (∀ g x, x ∈ l → P g → P (f g x)) →
    ∀ g, P g → P (List.foldl f g l) := by
  intro l
  induction l with
  | nil => intro hf g hg; exact hg
  | cons y rest ih =>
    intro hf g hg
    rw [List.foldl_cons]
    exact ih (fun g2 x hx => hf g2 x (List.mem_cons_of_mem y hx)) _
      (hf g y (List.mem_cons_self y rest) hg)

/-- A predicate established by the step at some member of the list, and
preserved by every step, holds of the fold result. -/
theorem foldl_establish {β γ : Type} (P : γ → Prop) (f : γ → β → γ) :
    ∀ (l : List β), (∀ g x, x ∈ l → P g → P (f g x)) →
    ∀ x0 : β, x0 ∈ l → (∀ g, P (f g x0)) →
    ∀ g, P (List.foldl f g l) := by
  intro l
  induction l with
  | nil => intro hf x0 hx0; exact absurd hx0 (List.not_mem_nil x0)
  | cons y rest ih =>
    intro hf x0 hx0 hest g
    rw [List.foldl_cons]
    rcases List.mem_cons.1 hx0 with h | h
    · subst h
      exact foldl_preserve P f rest
        (fun g2 x hx => hf g2 x (List.mem_cons_of_mem x0 hx)) _ (hest g)
    · exact ih (fun g2 x hx => hf g2 x (List.mem_cons_of_mem y hx)) x0 h hest _

/-- Node insertion leaves the edge table unchanged. -/
theorem addNode_edges {α : Type} (g : RawGraph α) (u : String) :
    (addNode g u).edges = g.edges := by
  unfold addNode
  split <;> rfl

/-- Membership after node insertion. -/
theorem mem_addNode {α : Type} (g : RawGraph α) (u x : String) :
    x ∈ (addNode g u).nodes ↔ x = u ∨ x ∈ g.nodes := by
  unfold addNode
  split
  · rename_i hmem
    constructor
    · exact Or.inr
    · intro h
      rcases h with h | h
      · rw [h]; exact hmem
      · exact h
  · simp
    exact Or.comm

/-- Node insertion keeps the node list duplicate-free. -/
theorem addNode_nodup {α : Type} (g : RawGraph α) (u : String)
    (h : g.nodes.Nodup) : (addNode g u).nodes.Nodup := by
  unfold addNode
  split
  · exact h
  · rename_i hmem
    simp [List.nodup_append, h, hmem]

/-- Edge table after add_edge: the unordered pair gets the new attribute
set, every other pair is unchanged. -/
theorem addEdge_edges {α : Type} (g : RawGraph α) (u v : String)
    (a : EdgeAttrs α) (x y : String) :
    (addEdge g u v a).edges x y =
      if (x = u ∧ y = v) ∨ (x = v ∧ y = u) then some a else g.edges x y := by
  show (if (x = u ∧ y = v) ∨ (x = v ∧ y = u) then some a
    else (addNode (addNode g u) v).edges x y) = _
  rw [addNode_edges, addNode_edges]

/-- Node membership after add_edge. -/
theorem mem_addEdge {α : Type} (g : RawGraph α) (u v : String)
    (a : EdgeAttrs α) (x : String) :
    x ∈ (addEdge g u v a).nodes ↔ x = v ∨ x = u ∨ x ∈ g.nodes := by
  show x ∈ (addNode (addNode g u) v).nodes ↔ _
  rw [mem_addNode, mem_addNode]

/-- add_edge keeps the node list duplicate-free. -/
theorem addEdge_nodup {α : Type} (g : RawGraph α) (u v : String)
    (a : EdgeAttrs α) (h : g.nodes.Nodup) : (addEdge g u v a).nodes.Nodup := by
  show (addNode (addNode g u) v).nodes.Nodup
  exact addNode_nodup _ _ (addNode_nodup _ _ h)

end RawGraphBasics

section BuilderProofs

/-- Net effect of the mode loop on the edge table: the pair carries the
attribute set of public_transport, the last mode iterated, every previous
add_edge for the pair having been overwritten. -/
theorem addLocationEdges_edges (g : RawGraph ℝ) (l1 l2 : Location) (x y : String) :
    (addLocationEdges g l1 l2).edges x y =
      if (x = l1.name ∧ y = l2.name) ∨ (x = l2.name ∧ y = l1.name) then
        some (edgeAttrsFor (calculate_distance l1 l2) "public_transport" ⟨1 / 2, 20⟩)
      else g.edges x y := by
  simp only [addLocationEdges, transport_modes, List.foldl_cons, List.foldl_nil]
  rw [addEdge_edges, addEdge_edges, addEdge_edges]
  by_cases hc : (x = l1.name ∧ y = l2.name) ∨ (x = l2.name ∧ y = l1.name) <;> simp [hc]

/-- Node membership after the mode loop. -/
theorem mem_addLocationEdges (g : RawGraph ℝ) (l1 l2 : Location) (x : String) :
    x ∈ (addLocationEdges g l1 l2).nodes ↔
      x = l1.name ∨ x = l2.name ∨ x ∈ g.nodes := by
  simp only [addLocationEdges, transport_modes, List.foldl_cons, List.foldl_nil]
  rw [mem_addEdge, mem_addEdge, mem_addEdge]
  tauto

/-- The mode loop keeps the node list duplicate-free. -/
theorem addLocationEdges_nodup (g : RawGraph ℝ) (l1 l2 : Location)
    (h : g.nodes.Nodup) : (addLocationEdges g l1 l2).nodes.Nodup := by
  simp only [addLocationEdges, transport_modes, List.foldl_cons, List.foldl_nil]
  exact addEdge_nodup _ _ _ _ (addEdge_nodup _ _ _ _ (addEdge_nodup _ _ _ _ h))

/-- The mode loop never removes an edge. -/
theorem addLocationEdges_isSome_mono (g : RawGraph ℝ) (l1 l2 : Location)
    (x y : String) (h : (g.edges x y).isSome = true) :
    ((addLocationEdges g l1 l2).edges x y).isSome = true := by
  rw [addLocationEdges_edges]
  split_ifs
  · rfl
  · exact h

/-- Mode names are never among the four attribute keys of an edge. -/
theorem attrDict_mode_name_none {α : Type} (a : EdgeAttrs α) (m : String)
    (hm : m ∈ modeNames) : attrDict a m = none := by
  simp only [modeNames, List.mem_cons, List.mem_singleton, List.not_mem_nil, or_false] at hm
  rcases hm with rfl | rfl | rfl <;> rfl

/-- The attribute dictionary of an edge holds exactly the four keyword keys
of the add_edge call. -/
theorem attrDict_keys {α : Type} (a : EdgeAttrs α) (k : String) :
    (attrDict a k).isSome = true ↔ k ∈ ["mode", "distance", "time", "cost"] := by
  unfold attrDict
  split_ifs <;> simp_all

/-- Second components of enumerate members belong to the list. -/
theorem enum_snd_mem {β : Type} {p : Nat × β} {l : List β} (h : p ∈ l.enum) :
    p.2 ∈ l :=
  List.getElem?_mem (List.mem_enum_iff_getElem?.1 h)

/-- The node list of the built travel graph is duplicate-free. -/
theorem create_travel_graph_nodup (stops : List (SchemaStop ℝ)) (sp : Option Location) :
    (create_travel_graph stops sp).nodes.Nodup := by
  unfold create_travel_graph
  apply foldl_preserve (fun g : RawGraph ℝ => g.nodes.Nodup)
  · intro g x hx hg
    apply foldl_preserve (fun g : RawGraph ℝ => g.nodes.Nodup)
    · intro g2 y hy hg2
      split
      · exact addLocationEdges_nodup _ _ _ hg2
      · exact hg2
    · exact hg
  · exact List.nodup_nil

/-- Every node of the built travel graph is the name of an input location. -/
theorem create_travel_graph_nodes_sub (stops : List (SchemaStop ℝ)) (sp : Option Location) :
    ∀ x ∈ (create_travel_graph stops sp).nodes,
      ∃ l ∈ graphLocations stops sp, x = l.name := by
  unfold create_travel_graph
  apply foldl_preserve
    (fun g : RawGraph ℝ => ∀ x ∈ g.nodes, ∃ l ∈ graphLocations stops sp, x = l.name)
  · intro g il1 hil1 hg
    apply foldl_preserve
      (fun g : RawGraph ℝ => ∀ x ∈ g.nodes, ∃ l ∈ graphLocations stops sp, x = l.name)
    · intro g2 jl2 hjl2 hg2
      split
      · intro x hx
        rcases (mem_addLocationEdges _ _ _ _).1 hx with h | h | h
        · exact ⟨il1.2, enum_snd_mem hil1, h⟩
        · exact ⟨jl2.2, enum_snd_mem hjl2, h⟩
        · exact hg2 x h
      · exact hg2
    · exact hg
  · intro x hx
    exact absurd hx (List.not_mem_nil x)

/-- Every stored edge attribute set is the one of public_transport, the
last transport mode iterated. -/
theorem create_travel_graph_edge_mode (stops : List (SchemaStop ℝ)) (sp : Option Location) :
    ∀ (x y : String) (a : EdgeAttrs ℝ),
      (create_travel_graph stops sp).edges x y = some a →
      a.mode = "public_transport" := by
  unfold create_travel_graph
  apply foldl_preserve
    (fun g : RawGraph ℝ => ∀ (x y : String) (a : EdgeAttrs ℝ),
      g.edges x y = some a → a.mode = "public_transport")
  · intro g il1 hil1 hg
    apply foldl_preserve
      (fun g : RawGraph ℝ => ∀ (x y : String) (a : EdgeAttrs ℝ),
        g.edges x y = some a → a.mode = "public_transport")
    · intro g2 jl2 hjl2 hg2
      split
      · intro x y a ha
        rw [addLocationEdges_edges] at ha
        split_ifs at ha with hc
        · have : edgeAttrsFor (calculate_distance il1.2 jl2.2) "public_transport"
              ⟨1 / 2, 20⟩ = a := Option.some_injective _ ha
          rw [← this]
          rfl
        · exact hg2 x y a ha
      · exact hg2
    · exact hg
  · intro x y a ha
    exact absurd ha (by simp [RawGraph.empty])

/-- Between any two locations at distinct positions of the enumerate loop,
the built graph holds an edge. -/
theorem create_travel_graph_edge_present (stops : List (SchemaStop ℝ))
    (sp : Option Location) (i j : Nat) (l1 l2 : Location)
    (hi : (i, l1) ∈ (graphLocations stops sp).enum)
    (hj : (j, l2) ∈ (graphLocations stops sp).enum) (hij : i ≠ j) :
    ((create_travel_graph stops sp).edges l1.name l2.name).isSome = true := by
  unfold create_travel_graph
  refine foldl_establish (fun g : RawGraph ℝ => (g.edges l1.name l2.name).isSome = true)
    _ _ ?hpres (i, l1) hi ?hest _
  case hpres =>
    intro g x hx hg
    refine foldl_preserve (fun g : RawGraph ℝ => (g.edges l1.name l2.name).isSome = true)
      _ _ ?inner _ hg
    intro g2 y hy hg2
    split
    · exact addLocationEdges_isSome_mono _ _ _ _ _ hg2
    · exact hg2
  case hest =>
    intro g
    refine foldl_establish (fun g : RawGraph ℝ => (g.edges l1.name l2.name).isSome = true)
      _ _ ?pres2 (j, l2) hj ?est2 _
    case pres2 =>
      intro g2 y hy hg2
      split
      · exact addLocationEdges_isSome_mono _ _ _ _ _ hg2
      · exact hg2
    case est2 =>
      intro g2
      have hne : (i, l1).1 ≠ (j, l2).1 := hij
      rw [if_pos hne, addLocationEdges_edges, if_pos (Or.inl ⟨rfl, rfl⟩)]
      rfl

/-- With at least two locations, every input location name becomes a node
of the built graph. -/
theorem create_travel_graph_name_mem (stops : List (SchemaStop ℝ))
    (sp : Option Location) (i : Nat) (l1 : Location)
    (hi : (i, l1) ∈ (graphLocations stops sp).enum)
    (hlen : 2 ≤ (graphLocations stops sp).length) :
    l1.name ∈ (create_travel_graph stops sp).nodes := by
  have hj0 : ∃ (j0 : Nat) (l2 : Location),
      (j0, l2) ∈ (graphLocations stops sp).enum ∧ i ≠ j0 := by
    rcases eq_or_ne i 0 with h0 | h0
    · have hb : 1 < (graphLocations stops sp).length := by omega
      exact ⟨1, (graphLocations stops sp).get ⟨1, hb⟩,
        List.mk_mem_enum_iff_getElem?.2
          (by rw [List.get_eq_getElem]; exact List.getElem?_eq_getElem hb), by omega⟩
    · have hb : 0 < (graphLocations stops sp).length := by omega
      exact ⟨0, (graphLocations stops sp).get ⟨0, hb⟩,
        List.mk_mem_enum_iff_getElem?.2
          (by rw [List.get_eq_getElem]; exact List.getElem?_eq_getElem hb), h0⟩
  obtain ⟨j0, l2, hj0mem, hij0⟩ := hj0
  unfold create_travel_graph
  refine foldl_establish (fun g : RawGraph ℝ => l1.name ∈ g.nodes)
    _ _ ?hpres (i, l1) hi ?hest _
  case hpres =>
    intro g x hx hg
    refine foldl_preserve (fun g : RawGraph ℝ => l1.name ∈ g.nodes) _ _ ?inner _ hg
    intro g2 y hy hg2
    split
    · exact (mem_addLocationEdges _ _ _ _).2 (Or.inr (Or.inr hg2))
    · exact hg2
  case hest =>
    intro g
    refine foldl_establish (fun g : RawGraph ℝ => l1.name ∈ g.nodes)
      _ _ ?pres2 (j0, l2) hj0mem ?est2 _
    case pres2 =>
      intro g2 y hy hg2
      split
      · exact (mem_addLocationEdges _ _ _ _).2 (Or.inr (Or.inr hg2))
      · exact hg2
    case est2 =>
      intro g2
      rw [if_pos (by exact hij0 : (i, l1).1 ≠ (j0, l2).1)]
      exact (mem_addLocationEdges _ _ _ _).2 (Or.inl rfl)

end BuilderProofs

section KeyErrorClaim

/-- C9: in every graph _create_travel_graph builds (over distinctly named
locations), each unordered pair of distinct nodes carries one flat
attribute set whose keys are exactly mode, distance, time and cost, holding
the values of public_transport, the last transport mode iterated (each
add_edge for the pair overwrote the previous one); no transport mode name
is a key of that set, so the eligibility lookup edge_data[mode] of
_calculate_optimal_path raises KeyError whenever the graph has a non-start
node, instead of returning a path. -/
theorem selector_raises_keyerror (stops : List (SchemaStop ℝ)) (sp : Option Location)
    (hnodup : ((graphLocations stops sp).map Location.name).Nodup)
    (hlen : 2 ≤ (graphLocations stops sp).length) :
    (∀ u v : String, u ∈ (create_travel_graph stops sp).nodes →
      v ∈ (create_travel_graph stops sp).nodes → u ≠ v →
      ∃ a, (create_travel_graph stops sp).edges u v = some a ∧
        a.mode = "public_transport" ∧
        (∀ k, (attrDict a k).isSome = true ↔ k ∈ ["mode", "distance", "time", "cost"]) ∧
        (∀ m ∈ modeNames, attrDict a m = none)) ∧
    (∀ budget : ℝ, ∃ k, calculate_optimal_path_raw (create_travel_graph stops sp) budget =
      Except.error (PyErr.keyError k)) := by
  have hpair : ∀ u v : String, u ∈ (create_travel_graph stops sp).nodes →
      v ∈ (create_travel_graph stops sp).nodes → u ≠ v →
      ∃ a, (create_travel_graph stops sp).edges u v = some a := by
    intro u v hu hv huv
    obtain ⟨l1, hl1, rfl⟩ := create_travel_graph_nodes_sub stops sp u hu
    obtain ⟨l2, hl2, rfl⟩ := create_travel_graph_nodes_sub stops sp v hv
    obtain ⟨i, hi⟩ := List.mem_iff_get?.1 hl1
    obtain ⟨j, hj⟩ := List.mem_iff_get?.1 hl2
    have hi2 : (graphLocations stops sp)[i]? = some l1 := by
      rw [← List.get?_eq_getElem?]; exact hi
    have hj2 : (graphLocations stops sp)[j]? = some l2 := by
      rw [← List.get?_eq_getElem?]; exact hj
    have hij : i ≠ j := by
      intro he
      subst he
      have : l1 = l2 := Option.some_injective _ (hi2.symm.trans hj2)
      exact huv (by rw [this])
    have hsome := create_travel_graph_edge_present stops sp i j l1 l2
      (List.mk_mem_enum_iff_getElem?.2 hi2) (List.mk_mem_enum_iff_getElem?.2 hj2) hij
    exact Option.isSome_iff_exists.1 hsome
  constructor
  · intro u v hu hv huv
    obtain ⟨a, ha⟩ := hpair u v hu hv huv
    exact ⟨a, ha, create_travel_graph_edge_mode stops sp u v a ha, attrDict_keys a,
      fun m hm => attrDict_mode_name_none a m hm⟩
  · intro budget
    have hb0 : 0 < (graphLocations stops sp).length := by omega
    have hb1 : 1 < (graphLocations stops sp).length := by omega
    obtain ⟨l0, he0⟩ : ∃ l0, (graphLocations stops sp)[0]? = some l0 :=
      ⟨_, List.getElem?_eq_getElem hb0⟩
    obtain ⟨l1, he1⟩ : ∃ l1, (graphLocations stops sp)[1]? = some l1 :=
      ⟨_, List.getElem?_eq_getElem hb1⟩
    have hne : l0.name ≠ l1.name := by
      intro he
      have hm0 : ((graphLocations stops sp).map Location.name)[0]? = some l0.name := by
        rw [List.getElem?_map, he0]; rfl
      have hm1 : ((graphLocations stops sp).map Location.name)[1]? = some l1.name := by
        rw [List.getElem?_map, he1]; rfl
      rw [he] at hm0
      have h01 : (0 : Nat) = 1 :=
        List.getElem?_inj (by simpa using hb0) hnodup (hm0.trans hm1.symm)
      exact absurd h01 (by omega)
    have hmem0 : l0.name ∈ (create_travel_graph stops sp).nodes :=
      create_travel_graph_name_mem stops sp 0 l0
        (List.mk_mem_enum_iff_getElem?.2 he0) hlen
    have hmem1 : l1.name ∈ (create_travel_graph stops sp).nodes :=
      create_travel_graph_name_mem stops sp 1 l1
        (List.mk_mem_enum_iff_getElem?.2 he1) hlen
    cases hn : (create_travel_graph stops sp).nodes with
    | nil =>
      rw [hn] at hmem0
      exact absurd hmem0 (List.not_mem_nil _)
    | cons c rest =>
      cases hr : rest with
      | nil =>
        rw [hn, hr] at hmem0 hmem1
        have h0 : l0.name = c := by simpa using hmem0
        have h1 : l1.name = c := by simpa using hmem1
        exact absurd (h0.trans h1.symm) hne
      | cons r0 rtail =>
        have hnodupN := create_travel_graph_nodup stops sp
        rw [hn, hr] at hnodupN
        have hcr : c ≠ r0 := by
          intro he
          exact (List.nodup_cons.1 hnodupN).1 (he ▸ List.mem_cons_self r0 rtail)
        have hcm : c ∈ (create_travel_graph stops sp).nodes := by
          rw [hn]; exact List.mem_cons_self c rest
        have hrm : r0 ∈ (create_travel_graph stops sp).nodes := by
          rw [hn, hr]; simp
        obtain ⟨a, ha⟩ := hpair c r0 hcm hrm hcr
        refine ⟨"walking", ?_⟩
        unfold calculate_optimal_path_raw
        rw [hn, hr]
        have hcand : rawCandStep (create_travel_graph stops sp) c none (r0, "walking") =
            Except.error (PyErr.keyError "walking") := by
          unfold rawCandStep
          rw [ha]
          rfl
        have hfold : rawBestCandidate (create_travel_graph stops sp) c (r0 :: rtail) =
            Except.error (PyErr.keyError "walking") := by
          show rawBestFold _ c ((r0 :: rtail).product modeNames) none = _
          have hprod : (r0 :: rtail).product modeNames =
              (r0, "walking") :: (r0, "taxi") :: (r0, "public_transport") ::
                rtail.product modeNames := rfl
          rw [hprod, rawBestFold, hcand]
        dsimp only
        unfold rawSelectLoop
        rw [if_neg (by simp), hfold]

end KeyErrorClaim

/-- Witness for C9 at two concretely named locations. -/
theorem selector_raises_keyerror_witness :
    (((graphLocations exStops none).map Location.name).Nodup ∧
      2 ≤ (graphLocations exStops none).length) ∧
    (∀ budget : ℝ, ∃ k, calculate_optimal_path_raw (create_travel_graph exStops none) budget =
      Except.error (PyErr.keyError k)) :=
  ⟨⟨by decide, by decide⟩,
    (selector_raises_keyerror exStops none (by decide) (by decide)).2⟩

/-- C5 evaluation at the failing input: with the two locations A and B, the
built graph holds, for the pair, one single flat attribute set carrying the
values of public_transport (the last mode iterated), and NO per-mode entry:
the walking and taxi attribute sets were overwritten by the later add_edge
calls, and edge lookup by mode name finds nothing for any mode. -/
theorem travel_graph_overwrites_modes :
    ((create_travel_graph exStops none).edges "A" "B").map EdgeAttrs.mode =
      some "public_transport" ∧
    ((create_travel_graph exStops none).edges "A" "B").map (fun a => attrDict a "walking") =
      some none ∧
    ((create_travel_graph exStops none).edges "A" "B").map (fun a => attrDict a "taxi") =
      some none ∧
    ((create_travel_graph exStops none).edges "A" "B").map
      (fun a => attrDict a "public_transport") = some none :=
  ⟨rfl, rfl, rfl, rfl⟩

section SchedulerRawClaim

variable {α : Type} [LinearOrderedCommRing α]

/-- C10: on every nonempty path whose first segment fits the window, the raw
scheduler fails while constructing the first ItineraryStop — the location
keyword is bound to the destination name STRING where the schema requires a
Location value, and the required activity_type and status fields are not
passed at all — and on every input an Except.ok result can only carry the
empty stop list, so the scheduler as written never returns a nonempty list
of Scheduled Stops. -/
theorem scheduler_never_commits (path : List (RawSegment α)) (s e : Time) :
    (∀ (seg : RawSegment α) (rest : List (RawSegment α)), path = seg :: rest →
      ((s.toMinutes : Nat) : α) + seg.time + 60 ≤ ((e.toMinutes : Nat) : α) →
      assign_time_slots_raw path s e = Except.error (PyErr.validationError "location")) ∧
    (∀ stops, assign_time_slots_raw path s e = Except.ok stops → stops = []) := by
  constructor
  · intro seg rest hpath hfit
    subst hpath
    unfold assign_time_slots_raw
    rw [assignRawGo]
    rw [if_pos hfit]
    rfl
  · intro stops h
    cases path with
    | nil =>
      unfold assign_time_slots_raw at h
      rw [assignRawGo] at h
      have h2 : ([] : List (SchemaStop α)) = stops := by
        injection h
      exact h2.symm
    | cons seg rest =>
      unfold assign_time_slots_raw at h
      rw [assignRawGo] at h
      by_cases hfit : ((s.toMinutes : Nat) : α) + seg.time + 60 ≤ ((e.toMinutes : Nat) : α)
      · rw [if_pos hfit] at h
        have hval : (match validateItineraryStop
            [("location", PyVal.vstr seg.toN),
             ("start_time", PyVal.vtime (((s.toMinutes : Nat) : α) + seg.time)),
             ("end_time", PyVal.vtime (((s.toMinutes : Nat) : α) + seg.time + 60)),
             ("travel_time_to_next", PyVal.vnum seg.time),
             ("travel_method_to_next", PyVal.vstr seg.mode),
             ("cost", PyVal.vnum seg.cost)] with
          | Except.error e2 => Except.error (α := List (SchemaStop α)) e2
          | Except.ok stop =>
            match assignRawGo ((e.toMinutes : Nat) : α) rest
                (((s.toMinutes : Nat) : α) + seg.time + 60) with
            | Except.error e2 => Except.error e2
            | Except.ok stops2 => Except.ok (stop :: stops2)) =
          Except.error (PyErr.validationError "location") := rfl
        rw [hval] at h
        exact absurd h (by simp)
      · rw [if_neg hfit] at h
        have h2 : ([] : List (SchemaStop α)) = stops := by
          injection h
        exact h2.symm

/-- Witness for C10 at a concrete one-segment path and a ten-hour window. -/
theorem scheduler_never_commits_witness :
    (((((Time.mk 0 0).toMinutes : Nat) : ℤ) +
        (⟨"A", "B", "walking", 0, 5⟩ : RawSegment ℤ).time + 60 ≤
      (((Time.mk 10 0).toMinutes : Nat) : ℤ)) ∧
    assign_time_slots_raw [(⟨"A", "B", "walking", 0, 5⟩ : RawSegment ℤ)] ⟨0, 0⟩ ⟨10, 0⟩ =
      Except.error (PyErr.validationError "location")) :=
  ⟨by decide,
    (scheduler_never_commits [(⟨"A", "B", "walking", 0, 5⟩ : RawSegment ℤ)] ⟨0, 0⟩ ⟨10, 0⟩).1
      ⟨"A", "B", "walking", 0, 5⟩ [] rfl (by decide)⟩

end SchedulerRawClaim
